import Mathlib

/-!
Shallow embedding of the remote invocation engine of `modal/functions.py`:
the input encoder, the result decoder, the single-call `Invocation`
lifecycle, and the parallel Map engine's output poller, together with the
wire-level record types they exchange with the control plane.

Opaque collaborators (the byte codec, the clock, the server) are modelled
as explicit parameters; bytes are `List Nat`, wall-clock times are `ℚ`.
-/

/-- `GenericResult.status` (spec: `status ∈ {SUCCESS, FAILURE}`). -/
inductive GenericStatus where
  | GENERIC_STATUS_SUCCESS
  | GENERIC_STATUS_FAILURE
deriving DecidableEq, Repr

/-- `GenericResult.gen_status` (spec: `gen_status ∈ {NONE, COMPLETE}`). -/
inductive GenStatus where
  | GENERATOR_STATUS_NONE
  | GENERATOR_STATUS_COMPLETE
deriving DecidableEq, Repr

/-- The `api_pb2.GenericResult` envelope: status, generator status, a
payload that is inline bytes or a blob id (`data_oneof`), and the
`exception` / `traceback` strings set on failures. -/
structure GenericResult where
  status : GenericStatus
  gen_status : GenStatus
  data : List Nat
  data_blob_id : Option Nat
  exception : String
  traceback : String
deriving DecidableEq, Repr

/-- `api_pb2.FunctionInput`: the payload of one input, either inline
`args` bytes or an `args_blob_id` reference. -/
structure FunctionInput where
  args : Option (List Nat)
  args_blob_id : Option Nat
deriving DecidableEq, Repr

/-- `api_pb2.FunctionPutInputsItem`: one input together with its index
(`idx` is set in Map mode, omitted in single-call mode). -/
structure FunctionPutInputsItem where
  input : FunctionInput
  idx : Option Nat
deriving DecidableEq, Repr

/-- The blob side-channel's remote store: uploaded payloads in order;
a blob id is an index into this list. -/
structure BlobStore where
  blobs : List (List Nat)
deriving DecidableEq, Repr

/-- `blob_upload(data, stub)`: store the bytes, return the fresh blob id. -/
def blob_upload (store : BlobStore) (data : List Nat) : Nat × BlobStore :=
  (store.blobs.length, ⟨store.blobs ++ [data]⟩)

/-- `blob_download(blob_id, stub)`: fetch the bytes behind a blob id. -/
def blob_download (store : BlobStore) (blob_id : Nat) : List Nat :=
  store.blobs.getD blob_id []

/-- `_create_input(args, kwargs, client, idx)`: serialize the argument
pair and build a `FunctionPutInputsItem`, uploading to blob storage when
the serialized size exceeds `MAX_OBJECT_SIZE_BYTES` (the threshold is an
explicit parameter here because `_blob_utils.py` is outside the embedded
sources; `serialize` is the opaque codec, also a parameter). -/
def _create_input {α : Type} (max_object_size_bytes : Nat)
    (serialize : α → List Nat) (args_kwargs : α) (store : BlobStore)
    (idx : Option Nat) : FunctionPutInputsItem × BlobStore :=
  let args_serialized := serialize args_kwargs
  if args_serialized.length > max_object_size_bytes then
    let (args_blob_id, store') := blob_upload store args_serialized
    (⟨⟨none, some args_blob_id⟩, idx⟩, store')
  else
    (⟨⟨some args_serialized, none⟩, idx⟩, store)

/-- The observable outcome of `_process_result`: a returned value, a
raised `ExecutionError` with its message, a propagated remote exception,
a raised `RemoteError`, or an exception escaping from `deserialize` on
the success path. -/
inductive ProcessOutcome (V : Type) where
  | ok (v : V)
  | executionError (msg : String)
  | raised (exc : V)
  | remoteError (msg : String)
  | localRaise (e : String)
deriving DecidableEq, Repr

/-- The opaque value codec of `_serialization.py`: deserialization either
yields a value or raises (`Except.error` carries the local error's text);
`isException`/`typeName` model `isinstance(_, BaseException)` and
`type(_)`. -/
structure Codec (V : Type) where
  deser : List Nat → Except String V
  isException : V → Bool
  typeName : V → String

/-- The `ExecutionError` message built when the remote exception payload
cannot be deserialized locally. -/
def deserFailMsg (deser_exc traceback : String) : String :=
  "Could not deserialize remote exception due to local error:\n"
    ++ deser_exc ++ "\n"
    ++ "This can happen if your local environment does not have the remote exception definitions.\n"
    ++ "Here is the remote traceback:\n"
    ++ traceback

/-- The `ExecutionError` message built when the deserialized payload is
not an exception object. -/
def incorrectTypeMsg (tyName : String) : String :=
  "Got remote exception of incorrect type " ++ tyName

/-- `_process_result(result, stub, client)`: resolve the payload through
the blob side-channel if needed, then decode a success value or
reconstruct the remote failure. -/
def _process_result {V : Type} (c : Codec V) (store : BlobStore)
    (result : GenericResult) : ProcessOutcome V :=
  let data : List Nat :=
    match result.data_blob_id with
    | some blob_id => blob_download store blob_id
    | none => result.data
  if result.status ≠ GenericStatus.GENERIC_STATUS_SUCCESS then
    if data ≠ [] then
      match c.deser data with
      | Except.error deser_exc =>
          ProcessOutcome.executionError (deserFailMsg deser_exc result.traceback)
      | Except.ok exc =>
          if c.isException exc then ProcessOutcome.raised exc
          else ProcessOutcome.executionError (incorrectTypeMsg (c.typeName exc))
    else
      ProcessOutcome.remoteError result.exception
  else
    match c.deser data with
    | Except.error e => ProcessOutcome.localRaise e
    | Except.ok v => ProcessOutcome.ok v

/-- **C2.** For every `(args, kwargs)` pair (every codec and argument
value), `_create_input` emits exactly one payload variant, chosen by the
serialized size `s`: if `s > MAX_OBJECT_SIZE_BYTES` the record carries a
blob id and no inline bytes, otherwise inline bytes and no blob id. -/
theorem create_input_payload_variant {α : Type} (max_object_size_bytes : Nat)
    (serialize : α → List Nat) (args_kwargs : α) (store : BlobStore)
    (idx : Option Nat) :
    let item := (_create_input max_object_size_bytes serialize args_kwargs store idx).1
    ((serialize args_kwargs).length > max_object_size_bytes →
      item.input.args = none ∧ (item.input.args_blob_id).isSome) ∧
    ((serialize args_kwargs).length ≤ max_object_size_bytes →
      item.input.args = some (serialize args_kwargs) ∧
        item.input.args_blob_id = none) := by
  constructor
  · intro hgt
    simp [_create_input, blob_upload, hgt]
  · intro hle
    simp [_create_input, Nat.not_lt.mpr hle]

/-- Witness for C2 at concrete inputs: a 3-byte payload with threshold 2
goes to the blob channel; with threshold 5 it stays inline. -/
theorem create_input_payload_variant_witness :
    ((_create_input 2 id [0, 1, 2] ⟨[]⟩ none).1.input.args = none ∧
      ((_create_input 2 id [0, 1, 2] ⟨[]⟩ none).1.input.args_blob_id).isSome) ∧
    ((_create_input 5 id [0, 1, 2] ⟨[]⟩ none).1.input.args = some [0, 1, 2] ∧
      (_create_input 5 id [0, 1, 2] ⟨[]⟩ none).1.input.args_blob_id = none) :=
  ⟨(create_input_payload_variant 2 id [0, 1, 2] ⟨[]⟩ none).1 (by decide),
   (create_input_payload_variant 5 id [0, 1, 2] ⟨[]⟩ none).2 (by decide)⟩

/-- **C4.** For every `GenericResult` with `status == FAILURE`: if payload
bytes are present and deserialization raises, `_process_result` fails with
an `ExecutionError` whose message includes the remote traceback; if the
deserialized object is not an exception, it fails with an `ExecutionError`
reporting an incorrect type; if it is an exception, that exception is
propagated; and with no payload bytes it fails with a `RemoteError`
carrying `result.exception`. -/
theorem process_result_failure_cases {V : Type} (c : Codec V)
    (store : BlobStore) (result : GenericResult)
    (hfail : result.status = GenericStatus.GENERIC_STATUS_FAILURE) :
    let data : List Nat :=
      match result.data_blob_id with
      | some blob_id => blob_download store blob_id
      | none => result.data
    (∀ e, data ≠ [] → c.deser data = Except.error e →
      _process_result c store result =
        ProcessOutcome.executionError (deserFailMsg e result.traceback) ∧
      ∃ pre, deserFailMsg e result.traceback = pre ++ result.traceback) ∧
    (∀ exc, data ≠ [] → c.deser data = Except.ok exc → c.isException exc = false →
      _process_result c store result =
        ProcessOutcome.executionError (incorrectTypeMsg (c.typeName exc))) ∧
    (∀ exc, data ≠ [] → c.deser data = Except.ok exc → c.isException exc = true →
      _process_result c store result = ProcessOutcome.raised exc) ∧
    (data = [] →
      _process_result c store result =
        ProcessOutcome.remoteError result.exception) := by
  intro data
  have hne : result.status ≠ GenericStatus.GENERIC_STATUS_SUCCESS := by
    rw [hfail]; intro h; cases h
  refine ⟨?_, ?_, ?_, ?_⟩
  · intro e hdata hdeser
    constructor
    · simp only [_process_result, if_pos hne, if_pos hdata]
      rw [hdeser]
    · exact ⟨"Could not deserialize remote exception due to local error:\n"
        ++ e ++ "\n"
        ++ "This can happen if your local environment does not have the remote exception definitions.\n"
        ++ "Here is the remote traceback:\n", by simp [deserFailMsg, String.append_assoc]⟩
  · intro exc hdata hdeser hexc
    simp only [_process_result, if_pos hne, if_pos hdata]
    rw [hdeser]
    simp [hexc]
  · intro exc hdata hdeser hexc
    simp only [_process_result, if_pos hne, if_pos hdata]
    rw [hdeser]
    simp [hexc]
  · intro hdata
    simp only [_process_result, if_pos hne]
    rw [if_neg (by simpa using hdata)]

/-- Witness for C4: a concrete failure result exercising each branch with
a one-value codec over `Nat`. -/
theorem process_result_failure_cases_witness :
    (_process_result
        (⟨fun _ => Except.error "boom", fun _ => true, fun _ => "Nat"⟩ : Codec Nat)
        ⟨[]⟩
        ⟨GenericStatus.GENERIC_STATUS_FAILURE, GenStatus.GENERATOR_STATUS_NONE,
          [7], none, "exc", "tb"⟩ =
      ProcessOutcome.executionError (deserFailMsg "boom" "tb")) ∧
    (_process_result
        (⟨fun _ => Except.ok (0 : Nat), fun _ => true, fun _ => "Nat"⟩ : Codec Nat)
        ⟨[]⟩
        ⟨GenericStatus.GENERIC_STATUS_FAILURE, GenStatus.GENERATOR_STATUS_NONE,
          [], none, "exc", "tb"⟩ =
      ProcessOutcome.remoteError "exc") :=
  ⟨((process_result_failure_cases
      (⟨fun _ => Except.error "boom", fun _ => true, fun _ => "Nat"⟩ : Codec Nat)
      ⟨[]⟩
      ⟨GenericStatus.GENERIC_STATUS_FAILURE, GenStatus.GENERATOR_STATUS_NONE,
        [7], none, "exc", "tb"⟩ rfl).1 "boom" (by decide) rfl).1,
   (process_result_failure_cases
      (⟨fun _ => Except.ok (0 : Nat), fun _ => true, fun _ => "Nat"⟩ : Codec Nat)
      ⟨[]⟩
      ⟨GenericStatus.GENERIC_STATUS_FAILURE, GenStatus.GENERATOR_STATUS_NONE,
        [], none, "exc", "tb"⟩ rfl).2.2.2 rfl⟩

/-- `api_pb2.FunctionGetOutputsResponse.outputs` entries: an output index
together with its `GenericResult`. -/
structure OutputItem where
  idx : Nat
  result : GenericResult
deriving DecidableEq, Repr

/-- `result.gen_status == api_pb2.GenericResult.GENERATOR_STATUS_COMPLETE`. -/
def isComplete (r : GenericResult) : Bool :=
  match r.gen_status with
  | GenStatus.GENERATOR_STATUS_COMPLETE => true
  | GenStatus.GENERATOR_STATUS_NONE => false

/-- The mutable state of `poll_outputs` inside `map_invocation`:
`num_outputs`, the `pending_outputs` dict (an association list with
distinct keys), and the outputs yielded so far, in order. -/
structure PollState (V : Type) where
  num_outputs : Nat
  pending : List (Nat × V)
  yielded : List V
deriving DecidableEq, Repr

/-- `num_outputs in pending_outputs` / `pending_outputs[k]`. -/
def pendingLookup {V : Type} (k : Nat) : List (Nat × V) → Option V
  | [] => none
  | e :: rest => if e.1 = k then some e.2 else pendingLookup k rest

/-- Removal of key `k` (the effect of `pending_outputs.pop(k)`). -/
def pendingErase {V : Type} (k : Nat) (p : List (Nat × V)) : List (Nat × V) :=
  p.filter (fun e => e.1 != k)

/-- `pending_outputs[k] = v`: dict update (key stored once). -/
def pendingInsert {V : Type} (k : Nat) (v : V) (p : List (Nat × V)) :
    List (Nat × V) :=
  (k, v) :: pendingErase k p

/-- Processing of one `response.outputs` item inside `poll_outputs`:
generator mode counts COMPLETE markers and yields other results directly;
function mode stores the processed result in `pending_outputs` under its
input index. `proc` stands for `_process_result` on the successful path. -/
def stepItem {V : Type} (is_generator : Bool) (proc : GenericResult → V)
    (s : PollState V) (item : OutputItem) : PollState V :=
  if is_generator then
    if isComplete item.result then
      { s with num_outputs := s.num_outputs + 1 }
    else
      { s with yielded := s.yielded ++ [proc item.result] }
  else
    { s with pending := pendingInsert item.idx (proc item.result) s.pending }

/-- One pop-and-yield pass of the
`while num_outputs in pending_outputs:` loop, driven by a fuel that
bounds the number of pops; each pop removes a key, so
`s.pending.length` fuel is always sufficient (see `drainState`). -/
def drainLoop {V : Type} : Nat → PollState V → PollState V
  | 0, s => s
  | fuel + 1, s =>
    match pendingLookup s.num_outputs s.pending with
    | some v =>
        drainLoop fuel
          ⟨s.num_outputs + 1, pendingErase s.num_outputs s.pending,
            s.yielded ++ [v]⟩
    | none => s

/-- The `while num_outputs in pending_outputs:` drain loop of
`poll_outputs`: pop and yield sequentially while the next index is
pending. -/
def drainState {V : Type} (s : PollState V) : PollState V :=
  drainLoop s.pending.length s

/-- One iteration body of `poll_outputs`: fold a response's output items
into the state, then drain consecutive pending outputs. -/
def processResponse {V : Type} (is_generator : Bool)
    (proc : GenericResult → V) (items : List OutputItem) (s : PollState V) :
    PollState V :=
  drainState (items.foldl (stepItem is_generator proc) s)

/-- How a modelled `poll_outputs` run ends: loop exit via the termination
check (with the final state), a failed `assert`, or the modelled response
stream running out while the loop would keep polling. -/
inductive MapPollOutcome (V : Type) where
  | finished (s : PollState V)
  | assertFail
  | exhausted (s : PollState V)
deriving DecidableEq, Repr

/-- The `poll_outputs` loop of `map_invocation`, one element of the input
list per `FunctionGetOutputs` call: the `Bool` is the value of
`have_all_inputs` read at that iteration's termination check, the item
list is the response's outputs. Embeds both `assert` statements
(`num_outputs <= num_inputs` at the check, `len(pending_outputs) == 0`
at loop exit). -/
def poll_outputs {V : Type} (is_generator : Bool) (proc : GenericResult → V)
    (num_inputs : Nat) :
    List (Bool × List OutputItem) → PollState V → MapPollOutcome V
  | [], s => MapPollOutcome.exhausted s
  | (have_all_inputs, items) :: rest, s =>
    let s' := processResponse is_generator proc items s
    if have_all_inputs then
      if s'.num_outputs ≤ num_inputs then
        if s'.num_outputs = num_inputs then
          if s'.pending.length = 0 then MapPollOutcome.finished s'
          else MapPollOutcome.assertFail
        else poll_outputs is_generator proc num_inputs rest s'
      else MapPollOutcome.assertFail
    else poll_outputs is_generator proc num_inputs rest s'

/-- The state of `poll_outputs` before its first iteration. -/
def initPollState (V : Type) : PollState V := ⟨0, [], []⟩

/-- All output items of a modelled response stream, in arrival order. -/
def allItems (rs : List (Bool × List OutputItem)) : List OutputItem :=
  (rs.map Prod.snd).flatten

/-- Number of generator-COMPLETE markers among a list of output items. -/
def countComplete (items : List OutputItem) : Nat :=
  (items.filter (fun it => isComplete it.result)).length

/-- The drain loop has finished: the next expected index is not pending. -/
def Drained {V : Type} (s : PollState V) : Prop :=
  pendingLookup s.num_outputs s.pending = none

theorem pendingLookup_erase_ne {V : Type} {k i : Nat} (p : List (Nat × V))
    (h : k ≠ i) : pendingLookup k (pendingErase i p) = pendingLookup k p := by
  induction p with
  | nil => rfl
  | cons e rest ih =>
    by_cases hei : e.1 = i
    · rw [pendingErase, List.filter_cons, if_neg (by simp [hei])]
      rw [pendingErase] at ih
      rw [ih, pendingLookup, if_neg (by rw [hei]; exact fun hh => h hh.symm)]
    · rw [pendingErase, List.filter_cons, if_pos (by simp [hei])]
      rw [pendingLookup, pendingLookup]
      rw [pendingErase] at ih
      by_cases hek : e.1 = k
      · rw [if_pos hek, if_pos hek]
      · rw [if_neg hek, if_neg hek, ih]

theorem pendingLookup_erase_self {V : Type} (i : Nat) (p : List (Nat × V)) :
    pendingLookup i (pendingErase i p) = none := by
  induction p with
  | nil => rfl
  | cons e rest ih =>
    by_cases hei : e.1 = i
    · rwa [pendingErase, List.filter_cons, if_neg (by simp [hei])]
    · rw [pendingErase, List.filter_cons, if_pos (by simp [hei])]
      rw [pendingLookup, if_neg hei]
      exact ih

theorem pendingLookup_insert {V : Type} (k i : Nat) (v : V)
    (p : List (Nat × V)) :
    pendingLookup k (pendingInsert i v p) =
      if i = k then some v else pendingLookup k p := by
  by_cases hik : i = k
  · rw [pendingInsert, pendingLookup, if_pos hik, if_pos hik]
  · rw [pendingInsert, pendingLookup, if_neg hik, if_neg hik,
      pendingLookup_erase_ne _ fun hh => hik hh.symm]

theorem pendingErase_length_lt {V : Type} {k : Nat} {p : List (Nat × V)}
    {v : V} (h : pendingLookup k p = some v) :
    (pendingErase k p).length < p.length := by
  induction p with
  | nil => simp [pendingLookup] at h
  | cons e rest ih =>
    by_cases hek : e.1 = k
    · rw [pendingErase, List.filter_cons, if_neg (by simp [hek])]
      exact Nat.lt_succ_of_le (List.length_filter_le _ _)
    · rw [pendingLookup, if_neg hek] at h
      rw [pendingErase, List.filter_cons, if_pos (by simp [hek])]
      exact Nat.succ_lt_succ (ih h)

theorem pending_eq_nil_of_lookup {V : Type} {p : List (Nat × V)}
    (h : ∀ k, pendingLookup k p = none) : p = [] := by
  cases p with
  | nil => rfl
  | cons e rest =>
    have := h e.1
    rw [pendingLookup, if_pos rfl] at this
    cases this

/-- The loop invariant of `poll_outputs` in function (non-generator)
mode, relative to the set `P` of input indices whose outputs have been
received so far and the function `f` giving the processed result for each
input index: outputs `0 .. num_outputs - 1` have been yielded in index
order, and `pending_outputs` holds exactly the received indices at or
above `num_outputs`. -/
structure MapInv {V : Type} (N : Nat) (f : Nat → V) (P : List Nat)
    (s : PollState V) : Prop where
  yields : s.yielded = (List.range s.num_outputs).map f
  below : ∀ k, k < s.num_outputs → k ∈ P
  lk : ∀ k, pendingLookup k s.pending =
    if k ∈ P ∧ s.num_outputs ≤ k then some (f k) else none
  bound : ∀ i ∈ P, i < N

theorem MapInv.num_le {V : Type} {N : Nat} {f : Nat → V} {P : List Nat}
    {s : PollState V} (h : MapInv N f P s) : s.num_outputs ≤ N := by
  cases hn : s.num_outputs with
  | zero => exact Nat.zero_le N
  | succ n =>
    have hmem : n ∈ P := h.below n (by omega)
    have := h.bound n hmem
    omega

theorem MapInv.congr {V : Type} {N : Nat} {f : Nat → V} {P Q : List Nat}
    {s : PollState V} (h : MapInv N f P s) (hPQ : ∀ x, x ∈ P ↔ x ∈ Q) :
    MapInv N f Q s := by
  refine ⟨h.yields, fun k hk => (hPQ k).1 (h.below k hk), fun k => ?_,
    fun i hi => h.bound i ((hPQ i).2 hi)⟩
  rw [h.lk k]
  by_cases hk : k ∈ P
  · simp [hk, (hPQ k).1 hk]
  · have hq : k ∉ Q := fun hq => hk ((hPQ k).2 hq)
    simp [hk, hq]

theorem stepItem_false {V : Type} (proc : GenericResult → V)
    (s : PollState V) (item : OutputItem) :
    stepItem false proc s item =
      { s with pending := pendingInsert item.idx (proc item.result) s.pending } :=
  rfl

theorem stepItem_true {V : Type} (proc : GenericResult → V)
    (s : PollState V) (item : OutputItem) :
    stepItem true proc s item =
      if isComplete item.result then { s with num_outputs := s.num_outputs + 1 }
      else { s with yielded := s.yielded ++ [proc item.result] } :=
  rfl

theorem stepItem_inv {V : Type} {N : Nat} {f : Nat → V} {P : List Nat}
    {s : PollState V} (proc : GenericResult → V) (item : OutputItem)
    (h : MapInv N f P s) (hnotin : item.idx ∉ P) (hlt : item.idx < N)
    (hval : proc item.result = f item.idx) :
    MapInv N f (item.idx :: P) (stepItem false proc s item) := by
  have hge : s.num_outputs ≤ item.idx := by
    by_contra hcon
    exact hnotin (h.below item.idx (by omega))
  rw [stepItem_false]
  refine ⟨h.yields, fun k hk => List.mem_cons_of_mem _ (h.below k hk),
    fun k => ?_, fun i hi => ?_⟩
  · show pendingLookup k (pendingInsert item.idx (proc item.result) s.pending) = _
    rw [pendingLookup_insert, h.lk k]
    by_cases hik : item.idx = k
    · subst hik
      simp [hge, hval]
    · rw [if_neg hik]
      have hmem : (k ∈ item.idx :: P) = (k ∈ P) := by
        simp only [List.mem_cons, eq_iff_iff]
        constructor
        · rintro (hh | hh)
          · exact absurd hh.symm hik
          · exact hh
        · exact Or.inr
      show _ = (if k ∈ item.idx :: P ∧ s.num_outputs ≤ k then some (f k) else none)
      simp only [hmem]
  · rcases List.mem_cons.1 hi with hh | hh
    · rw [hh]
      exact hlt
    · exact h.bound i hh

theorem foldl_stepItem_inv {V : Type} {N : Nat} {f : Nat → V}
    (proc : GenericResult → V) :
    ∀ (items : List OutputItem) (P : List Nat) (s : PollState V),
      MapInv N f P s →
      (items.map (·.idx)).Nodup →
      (∀ it ∈ items, it.idx ∉ P) →
      (∀ it ∈ items, it.idx < N ∧ proc it.result = f it.idx) →
      MapInv N f (items.map (·.idx) ++ P)
        (items.foldl (stepItem false proc) s)
  | [], P, s, h, _, _, _ => by simpa using h
  | a :: as, P, s, h, hnd, hdisj, hprops => by
    have ha := hprops a (List.mem_cons_self a as)
    have h1 : MapInv N f (a.idx :: P) (stepItem false proc s a) :=
      stepItem_inv proc a h (hdisj a (List.mem_cons_self a as)) ha.1 ha.2
    have hnd' : (as.map (·.idx)).Nodup := (List.nodup_cons.1 (by simpa using hnd)).2
    have hnotin : a.idx ∉ as.map (·.idx) := (List.nodup_cons.1 (by simpa using hnd)).1
    have hdisj' : ∀ it ∈ as, it.idx ∉ a.idx :: P := by
      intro it hit
      rw [List.mem_cons]
      rintro (hh | hh)
      · exact hnotin (hh ▸ List.mem_map_of_mem (·.idx) hit)
      · exact hdisj it (List.mem_cons_of_mem _ hit) hh
    have hrec := foldl_stepItem_inv proc as (a.idx :: P) (stepItem false proc s a)
      h1 hnd' hdisj' (fun it hit => hprops it (List.mem_cons_of_mem _ hit))
    rw [List.foldl_cons]
    refine hrec.congr fun x => ?_
    simp only [List.map_cons, List.cons_append, List.mem_cons, List.mem_append]
    tauto

theorem drainLoop_drained {V : Type} (s : PollState V) (h : Drained s) :
    ∀ fuel, drainLoop fuel s = s := by
  intro fuel
  cases fuel with
  | zero => rfl
  | succ n =>
    unfold drainLoop
    rw [Drained] at h
    rw [h]

theorem drainLoop_inv {V : Type} {N : Nat} {f : Nat → V} {P : List Nat} :
    ∀ (fuel : Nat) (s : PollState V), s.pending.length ≤ fuel →
      MapInv N f P s →
      MapInv N f P (drainLoop fuel s) ∧ Drained (drainLoop fuel s) := by
  intro fuel
  induction fuel with
  | zero =>
    intro s hlen hinv
    have hnil : s.pending = [] := List.length_eq_zero.1 (Nat.le_zero.1 hlen)
    refine ⟨hinv, ?_⟩
    show pendingLookup s.num_outputs s.pending = none
    rw [hnil]
    rfl
  | succ n ih =>
    intro s hlen hinv
    cases hl : pendingLookup s.num_outputs s.pending with
    | none =>
      have heq : drainLoop (n + 1) s = s := by
        unfold drainLoop
        rw [hl]
      rw [heq]
      exact ⟨hinv, hl⟩
    | some v =>
      have hcond := hinv.lk s.num_outputs
      rw [hl] at hcond
      by_cases hc : s.num_outputs ∈ P ∧ s.num_outputs ≤ s.num_outputs
      · rw [if_pos hc] at hcond
        have hv : v = f s.num_outputs := Option.some.inj hcond
        have hinv₁ : MapInv N f P
            ⟨s.num_outputs + 1, pendingErase s.num_outputs s.pending,
              s.yielded ++ [v]⟩ := by
          refine ⟨?_, ?_, ?_, hinv.bound⟩
          · show s.yielded ++ [v] = (List.range (s.num_outputs + 1)).map f
            rw [List.range_succ, List.map_append, hinv.yields, hv]
            rfl
          · intro k hk
            show k ∈ P
            rcases Nat.lt_succ_iff_lt_or_eq.1 hk with hh | hh
            · exact hinv.below k hh
            · rw [hh]
              exact hc.1
          · intro k
            show pendingLookup k (pendingErase s.num_outputs s.pending) =
              if k ∈ P ∧ s.num_outputs + 1 ≤ k then some (f k) else none
            by_cases hk : k = s.num_outputs
            · subst hk
              rw [pendingLookup_erase_self,
                if_neg (fun hcc => Nat.not_succ_le_self _ hcc.2)]
            · rw [pendingLookup_erase_ne _ hk, hinv.lk k]
              have hiff : (k ∈ P ∧ s.num_outputs ≤ k) =
                  (k ∈ P ∧ s.num_outputs + 1 ≤ k) := by
                apply propext
                constructor
                · rintro ⟨h1, h2⟩
                  exact ⟨h1, by omega⟩
                · rintro ⟨h1, h2⟩
                  exact ⟨h1, by omega⟩
              simp only [hiff]
        have hlen₁ : (pendingErase s.num_outputs s.pending).length ≤ n := by
          have := pendingErase_length_lt (p := s.pending) hl
          omega
        have heq : drainLoop (n + 1) s = drainLoop n
            ⟨s.num_outputs + 1, pendingErase s.num_outputs s.pending,
              s.yielded ++ [v]⟩ := by
          conv_lhs => rw [drainLoop]
          rw [hl]
        rw [heq]
        exact ih _ hlen₁ hinv₁
      · rw [if_neg hc] at hcond
        cases hcond

theorem drainState_inv {V : Type} {N : Nat} {f : Nat → V} {P : List Nat}
    (s : PollState V) (hinv : MapInv N f P s) :
    MapInv N f P (drainState s) ∧ Drained (drainState s) :=
  drainLoop_inv s.pending.length s (le_refl _) hinv

/-- An empty `FunctionGetOutputs` response leaves the poll state
untouched: folding no items is the identity and the drain loop has
nothing new to pop. -/
theorem processResponse_nil {V : Type} (b : Bool) (proc : GenericResult → V)
    (s : PollState V) (h : Drained s) : processResponse b proc [] s = s := by
  show drainState s = s
  rw [drainState]
  exact drainLoop_drained s h _

theorem allItems_cons (hai : Bool) (items : List OutputItem)
    (rest : List (Bool × List OutputItem)) :
    allItems ((hai, items) :: rest) = items ++ allItems rest := by
  simp [allItems]

theorem poll_outputs_cons {V : Type} (is_generator : Bool)
    (proc : GenericResult → V) (N : Nat) (hai : Bool)
    (items : List OutputItem) (rest : List (Bool × List OutputItem))
    (s : PollState V) :
    poll_outputs is_generator proc N ((hai, items) :: rest) s =
      (if hai then
        if (processResponse is_generator proc items s).num_outputs ≤ N then
          if (processResponse is_generator proc items s).num_outputs = N then
            if (processResponse is_generator proc items s).pending.length = 0 then
              MapPollOutcome.finished (processResponse is_generator proc items s)
            else MapPollOutcome.assertFail
          else poll_outputs is_generator proc N rest
            (processResponse is_generator proc items s)
        else MapPollOutcome.assertFail
      else poll_outputs is_generator proc N rest
        (processResponse is_generator proc items s)) := rfl

theorem poll_outputs_nongen_run {V : Type} (proc : GenericResult → V)
    (N : Nat) (f : Nat → V) :
    ∀ (rs : List (Bool × List OutputItem)) (P : List Nat) (s : PollState V),
      MapInv N f P s →
      ((allItems rs).map (·.idx) ++ P).Nodup →
      (∀ it ∈ allItems rs, it.idx < N ∧ proc it.result = f it.idx) →
      poll_outputs false proc N rs s ≠ MapPollOutcome.assertFail ∧
      (∀ t, poll_outputs false proc N rs s = MapPollOutcome.finished t →
        t.num_outputs = N ∧ t.pending = [] ∧
          t.yielded = (List.range N).map f) := by
  intro rs
  induction rs with
  | nil =>
    intro P s hinv hnd hprops
    constructor
    · intro h
      exact MapPollOutcome.noConfusion h
    · intro t ht
      exact MapPollOutcome.noConfusion ht
  | cons hd rest ih =>
    obtain ⟨hai, items⟩ := hd
    intro P s hinv hnd hprops
    rw [allItems_cons, List.map_append, List.append_assoc] at hnd
    obtain ⟨hnd_items, hnd_rp, hdisj⟩ := List.nodup_append.1 hnd
    have hprops_items : ∀ it ∈ items, it.idx < N ∧ proc it.result = f it.idx :=
      fun it hit => hprops it
        (by rw [allItems_cons]; exact List.mem_append_left _ hit)
    have hprops_rest : ∀ it ∈ allItems rest,
        it.idx < N ∧ proc it.result = f it.idx :=
      fun it hit => hprops it
        (by rw [allItems_cons]; exact List.mem_append_right _ hit)
    have h_items_notP : ∀ it ∈ items, it.idx ∉ P :=
      fun it hit hP =>
        hdisj (List.mem_map_of_mem (·.idx) hit) (List.mem_append_right _ hP)
    have hfold := foldl_stepItem_inv proc items P s hinv hnd_items
      h_items_notP hprops_items
    obtain ⟨hinv', hdr⟩ :=
      drainState_inv (items.foldl (stepItem false proc) s) hfold
    have hinv2 : MapInv N f (items.map (·.idx) ++ P)
        (processResponse false proc items s) := hinv'
    have hperm : (items.map (·.idx) ++ ((allItems rest).map (·.idx) ++ P)).Perm
        ((allItems rest).map (·.idx) ++ (items.map (·.idx) ++ P)) := by
      rw [← List.append_assoc, ← List.append_assoc]
      exact List.Perm.append_right P List.perm_append_comm
    have hnd'' := hperm.nodup hnd
    have hrec := ih (items.map (·.idx) ++ P)
      (processResponse false proc items s) hinv' hnd'' hprops_rest
    have hle : (processResponse false proc items s).num_outputs ≤ N :=
      hinv'.num_le
    rw [poll_outputs_cons]
    cases hai with
    | false =>
      rw [if_neg (by simp)]
      exact hrec
    | true =>
      rw [if_pos rfl, if_pos hle]
      by_cases heq : (processResponse false proc items s).num_outputs = N
      · rw [if_pos heq]
        have hpend : (processResponse false proc items s).pending = [] := by
          apply pending_eq_nil_of_lookup
          intro k
          rw [hinv2.lk k]
          by_cases hk : k ∈ items.map (·.idx) ++ P
          · have hkN : k < N := hinv'.bound k hk
            rw [if_neg ?_]
            rintro ⟨-, hge2⟩
            rw [heq] at hge2
            omega
          · exact if_neg fun hcc => hk hcc.1
        rw [if_pos (by rw [hpend]; rfl)]
        constructor
        · intro h
          exact MapPollOutcome.noConfusion h
        · intro t ht
          injection ht with hst
          rw [← hst]
          refine ⟨heq, hpend, ?_⟩
          rw [hinv2.yields, heq]
      · rw [if_neg heq]
        exact hrec

theorem foldl_stepItem_gen {V : Type} (proc : GenericResult → V) :
    ∀ (items : List OutputItem) (s : PollState V),
      (items.foldl (stepItem true proc) s).pending = s.pending ∧
      (items.foldl (stepItem true proc) s).num_outputs =
        s.num_outputs + countComplete items := by
  intro items
  induction items with
  | nil =>
    intro s
    exact ⟨rfl, by simp [countComplete]⟩
  | cons a as ih =>
    intro s
    rw [List.foldl_cons]
    cases hcomp : isComplete a.result with
    | false =>
      have hstep : stepItem true proc s a =
          { s with yielded := s.yielded ++ [proc a.result] } := by
        rw [stepItem_true, if_neg (by simp [hcomp])]
      rw [hstep]
      obtain ⟨h1, h2⟩ := ih { s with yielded := s.yielded ++ [proc a.result] }
      refine ⟨h1, ?_⟩
      rw [h2]
      simp [countComplete, List.filter_cons, hcomp]
    | true =>
      have hstep : stepItem true proc s a =
          { s with num_outputs := s.num_outputs + 1 } := by
        rw [stepItem_true, if_pos (by simp [hcomp])]
      rw [hstep]
      obtain ⟨h1, h2⟩ := ih { s with num_outputs := s.num_outputs + 1 }
      refine ⟨h1, ?_⟩
      rw [h2]
      simp only [countComplete, List.filter_cons, hcomp, if_pos]
      simp [List.length_cons]
      omega

theorem countComplete_append (a b : List OutputItem) :
    countComplete (a ++ b) = countComplete a + countComplete b := by
  simp [countComplete, List.filter_append]

theorem poll_outputs_gen_run {V : Type} (proc : GenericResult → V) (N : Nat) :
    ∀ (rs : List (Bool × List OutputItem)) (s : PollState V),
      s.pending = [] →
      s.num_outputs + countComplete (allItems rs) ≤ N →
      poll_outputs true proc N rs s ≠ MapPollOutcome.assertFail ∧
      (∀ t, poll_outputs true proc N rs s = MapPollOutcome.finished t →
        t.num_outputs = N ∧ t.pending = []) := by
  intro rs
  induction rs with
  | nil =>
    intro s hp hn
    constructor
    · intro h
      exact MapPollOutcome.noConfusion h
    · intro t ht
      exact MapPollOutcome.noConfusion ht
  | cons hd rest ih =>
    obtain ⟨hai, items⟩ := hd
    intro s hp hn
    rw [allItems_cons, countComplete_append] at hn
    obtain ⟨hfp, hfn⟩ := foldl_stepItem_gen proc items s
    have hdp : (items.foldl (stepItem true proc) s).pending = [] :=
      hfp.trans hp
    have hdrained : Drained (items.foldl (stepItem true proc) s) := by
      rw [Drained, hdp]
      rfl
    have hsid : processResponse true proc items s =
        items.foldl (stepItem true proc) s := by
      rw [processResponse, drainState]
      exact drainLoop_drained _ hdrained _
    have hs'p : (processResponse true proc items s).pending = [] := by
      rw [hsid]
      exact hdp
    have hs'n : (processResponse true proc items s).num_outputs =
        s.num_outputs + countComplete items := by
      rw [hsid]
      exact hfn
    have hrecn : (processResponse true proc items s).num_outputs +
        countComplete (allItems rest) ≤ N := by
      rw [hs'n]
      omega
    have hrec := ih (processResponse true proc items s) hs'p hrecn
    have hle : (processResponse true proc items s).num_outputs ≤ N := by
      omega
    rw [poll_outputs_cons]
    cases hai with
    | false =>
      rw [if_neg (by simp)]
      exact hrec
    | true =>
      rw [if_pos rfl, if_pos hle]
      by_cases heq : (processResponse true proc items s).num_outputs = N
      · rw [if_pos heq, if_pos (by rw [hs'p]; rfl)]
        constructor
        · intro h
          exact MapPollOutcome.noConfusion h
        · intro t ht
          injection ht with hst
          rw [← hst]
          exact ⟨heq, hs'p⟩
      · rw [if_neg heq]
        exact hrec

theorem mapInv_init {V : Type} (N : Nat) (f : Nat → V) :
    MapInv N f [] (initPollState V) := by
  refine ⟨rfl, ?_, ?_, ?_⟩
  · intro k hk
    exact absurd hk (Nat.not_lt_zero k)
  · intro k
    rw [if_neg (fun hc => List.not_mem_nil k hc.1)]
    rfl
  · intro i hi
    cases hi

theorem find_idx_of_nodup :
    ∀ (l : List OutputItem), ((l.map (·.idx)).Nodup) →
      ∀ it ∈ l, l.find? (fun x => x.idx == it.idx) = some it := by
  intro l
  induction l with
  | nil =>
    intro _ it hit
    cases hit
  | cons a as ih =>
    intro hnd it hit
    rw [List.map_cons, List.nodup_cons] at hnd
    rcases List.mem_cons.1 hit with hh | hh
    · subst hh
      exact List.find?_cons_of_pos _ (by simp)
    · have hne : ¬a.idx = it.idx := fun heq =>
        hnd.1 (heq ▸ List.mem_map_of_mem (·.idx) hh)
      rw [List.find?_cons_of_neg _ (by simp [hne])]
      exact ih hnd.2 it hh

/-- Well-formedness of a modelled server response stream for a Map call
with `num_inputs` inputs: in function mode the server returns at most one
output per input index and only valid indices; in generator mode it
returns at most `num_inputs` COMPLETE markers. -/
def StreamOK : Bool → Nat → List (Bool × List OutputItem) → Prop
  | true, num_inputs, rs => countComplete (allItems rs) ≤ num_inputs
  | false, num_inputs, rs =>
      ((allItems rs).map (·.idx)).Nodup ∧
        ∀ it ∈ allItems rs, it.idx < num_inputs

/-- **C1.** For every Map invocation of a non-generator function with `N`
inputs that completes successfully (the `poll_outputs` loop exits via its
termination check), the engine yields exactly `N` outputs and the i-th
yielded output is the processed result `f i` for the input with idx `i`,
regardless of the order in which the server returned the outputs. -/
theorem map_nongen_yields_in_index_order {V : Type}
    (proc : GenericResult → V) (num_inputs : Nat)
    (rs : List (Bool × List OutputItem)) (f : Nat → V) (t : PollState V)
    (hnodup : ((allItems rs).map (·.idx)).Nodup)
    (hbound : ∀ it ∈ allItems rs, it.idx < num_inputs)
    (hval : ∀ it ∈ allItems rs, proc it.result = f it.idx)
    (hrun : poll_outputs false proc num_inputs rs (initPollState V) =
      MapPollOutcome.finished t) :
    t.yielded = (List.range num_inputs).map f ∧
      t.yielded.length = num_inputs := by
  have hrun2 := (poll_outputs_nongen_run proc num_inputs f rs []
    (initPollState V) (mapInv_init num_inputs f) (by simpa using hnodup)
    (fun it hit => ⟨hbound it hit, hval it hit⟩)).2 t hrun
  refine ⟨hrun2.2.2, ?_⟩
  rw [hrun2.2.2]
  simp

/-- Witness for C1 (the spec's out-of-order scenario): four inputs whose
outputs arrive in server order 2, 0, 3, 1 over two responses are yielded
as `f 0, f 1, f 2, f 3`. -/
theorem map_nongen_yields_in_index_order_witness :
    (⟨4, [], [10, 11, 12, 13]⟩ : PollState Nat).yielded =
        (List.range 4).map (fun i => i + 10) ∧
      (⟨4, [], [10, 11, 12, 13]⟩ : PollState Nat).yielded.length = 4 :=
  map_nongen_yields_in_index_order (fun r => r.data.headD 0) 4
    [(false,
       [⟨2, ⟨GenericStatus.GENERIC_STATUS_SUCCESS,
          GenStatus.GENERATOR_STATUS_NONE, [12], none, "", ""⟩⟩,
        ⟨0, ⟨GenericStatus.GENERIC_STATUS_SUCCESS,
          GenStatus.GENERATOR_STATUS_NONE, [10], none, "", ""⟩⟩]),
     (true,
       [⟨3, ⟨GenericStatus.GENERIC_STATUS_SUCCESS,
          GenStatus.GENERATOR_STATUS_NONE, [13], none, "", ""⟩⟩,
        ⟨1, ⟨GenericStatus.GENERIC_STATUS_SUCCESS,
          GenStatus.GENERATOR_STATUS_NONE, [11], none, "", ""⟩⟩])]
    (fun i => i + 10) ⟨4, [], [10, 11, 12, 13]⟩
    (by decide) (by decide) (by decide) (by decide)

/-- **C8.** Over any well-formed response stream, the Map poll loop never
fails its asserts (`num_outputs <= num_inputs` at the termination check,
`len(pending_outputs) == 0` at exit), every successful exit happens with
`num_outputs == num_inputs` and an empty `pending_outputs`, and an empty
`FunctionGetOutputs` response leaves the poll state unchanged — so
termination occurs exactly when `have_all_inputs` is set and
`num_outputs == num_inputs`, never because a response was empty. -/
theorem map_poll_termination (V : Type) (is_generator : Bool)
    (proc : GenericResult → V) (num_inputs : Nat)
    (rs : List (Bool × List OutputItem))
    (hok : StreamOK is_generator num_inputs rs) :
    (poll_outputs is_generator proc num_inputs rs (initPollState V) ≠
      MapPollOutcome.assertFail) ∧
    (∀ t, poll_outputs is_generator proc num_inputs rs (initPollState V) =
        MapPollOutcome.finished t →
      t.num_outputs = num_inputs ∧ t.pending = []) ∧
    (∀ (b : Bool) (s : PollState V), Drained s →
      processResponse b proc [] s = s) := by
  refine ⟨?_, ?_, fun b s hs => processResponse_nil b proc s hs⟩ <;>
  · cases is_generator with
    | true =>
      have hrun := poll_outputs_gen_run proc num_inputs rs (initPollState V)
        rfl (by simpa [initPollState] using hok)
      first
        | exact hrun.1
        | exact hrun.2
    | false =>
      obtain ⟨hnodup, hbound⟩ := hok
      classical
      let f : Nat → V := fun i =>
        match (allItems rs).find? (fun x => x.idx == i) with
        | some it => proc it.result
        | none => proc ⟨GenericStatus.GENERIC_STATUS_SUCCESS,
            GenStatus.GENERATOR_STATUS_NONE, [], none, "", ""⟩
      have hval : ∀ it ∈ allItems rs, proc it.result = f it.idx := by
        intro it hit
        show proc it.result =
          (match (allItems rs).find? (fun x => x.idx == it.idx) with
           | some it => proc it.result
           | none => proc ⟨GenericStatus.GENERIC_STATUS_SUCCESS,
               GenStatus.GENERATOR_STATUS_NONE, [], none, "", ""⟩)
        rw [find_idx_of_nodup (allItems rs) hnodup it hit]
      have hrun := poll_outputs_nongen_run proc num_inputs f rs []
        (initPollState V) (mapInv_init num_inputs f) (by simpa using hnodup)
        (fun it hit => ⟨hbound it hit, hval it hit⟩)
      first
        | exact hrun.1
        | exact fun t ht => ⟨(hrun.2 t ht).1, (hrun.2 t ht).2.1⟩

/-- Witness for C8: two out-of-order outputs for two inputs; the run
finishes without tripping an assert. -/
theorem map_poll_termination_witness :
    poll_outputs false (fun r => r.data.headD 0) 2
      [(true,
         [⟨1, ⟨GenericStatus.GENERIC_STATUS_SUCCESS,
            GenStatus.GENERATOR_STATUS_NONE, [11], none, "", ""⟩⟩,
          ⟨0, ⟨GenericStatus.GENERIC_STATUS_SUCCESS,
            GenStatus.GENERATOR_STATUS_NONE, [10], none, "", ""⟩⟩])]
      (initPollState Nat) ≠ MapPollOutcome.assertFail :=
  (map_poll_termination Nat false (fun r => r.data.headD 0) 2
    [(true,
       [⟨1, ⟨GenericStatus.GENERIC_STATUS_SUCCESS,
          GenStatus.GENERATOR_STATUS_NONE, [11], none, "", ""⟩⟩,
        ⟨0, ⟨GenericStatus.GENERIC_STATUS_SUCCESS,
          GenStatus.GENERATOR_STATUS_NONE, [10], none, "", ""⟩⟩])]
    ⟨by decide, by decide⟩).1

/-- An `api_pb2.FunctionGetOutputsRequest` as issued by
`Invocation.get_items`. -/
structure GetOutputsRequest where
  function_call_id : String
  timeout : ℚ
  return_empty_on_timeout : Bool
deriving DecidableEq, Repr

/-- The backend timeout computed before the first poll of `get_items`:
`60.0` when no timeout is given, else `min(60.0, timeout)`. -/
def initial_backend_timeout (timeout : Option ℚ) : ℚ :=
  match timeout with
  | none => 60
  | some t => min 60 t

/-- The `while True:` loop of `Invocation.get_items(timeout)`, driven by
an explicit clock and server: `times k` is the `time.time()` reading made
after the `k`-th poll comes back empty, `resp k` is the `k`-th
`FunctionGetOutputs` response's outputs. Returns the requests issued (one
per executed poll) and the yielded results — `some outs` for a normal end
of the generator (`some []` when the deadline passed with nothing
yielded), `none` if the modelling fuel ran out while the loop would keep
polling. -/
def get_items_loop (function_call_id : String) (timeout : Option ℚ)
    (t0 : ℚ) (times : Nat → ℚ) (resp : Nat → List OutputItem) :
    Nat → ℚ → Nat → List GetOutputsRequest × Option (List GenericResult)
  | 0, _, _ => ([], none)
  | fuel + 1, backend_timeout, k =>
    let req : GetOutputsRequest := ⟨function_call_id, backend_timeout, true⟩
    let outs := resp k
    if outs.length > 0 then
      ([req], some (outs.map (·.result)))
    else
      match timeout with
      | none =>
        let r := get_items_loop function_call_id none t0 times resp fuel
          60 (k + 1)
        (req :: r.1, r.2)
      | some t =>
        let backend_timeout' := min 60 (t0 + t - times k)
        if backend_timeout' < 0 then ([req], some [])
        else
          let r := get_items_loop function_call_id (some t) t0 times resp
            fuel backend_timeout' (k + 1)
          (req :: r.1, r.2)

/-- `Invocation.get_items(timeout)` started at wall-clock `t0`. -/
def get_items (function_call_id : String) (timeout : Option ℚ) (t0 : ℚ)
    (times : Nat → ℚ) (resp : Nat → List OutputItem) (fuel : Nat) :
    List GetOutputsRequest × Option (List GenericResult) :=
  get_items_loop function_call_id timeout t0 times resp fuel
    (initial_backend_timeout timeout) 0

/-- The backend timeout `get_items` attaches to its `i`-th poll:
`min(60, remaining)` where the remaining budget is the full timeout for
the first poll and `t0 + timeout - times (i-1)` afterwards (`60` when no
timeout was given). -/
def expected_backend_timeout (timeout : Option ℚ) (t0 : ℚ)
    (times : Nat → ℚ) : Nat → ℚ
  | 0 => initial_backend_timeout timeout
  | i + 1 =>
    match timeout with
    | none => 60
    | some t => min 60 (t0 + t - times i)

theorem range_map_shift {β : Type} (g : Nat → β) (n k : Nat) :
    (List.range (n + 1)).map (fun j => g (k + j)) =
      g k :: (List.range n).map (fun j => g (k + 1 + j)) := by
  rw [List.range_succ_eq_map, List.map_cons, List.map_map]
  refine congrArg₂ _ (by rw [Nat.add_zero]) ?_
  apply List.map_congr_left
  intro a _
  show g (k + (a + 1)) = g (k + 1 + a)
  congr 1
  omega

theorem get_items_loop_succ_none (fcid : String) (t0 : ℚ) (times : Nat → ℚ)
    (resp : Nat → List OutputItem) (f : Nat) (bt : ℚ) (k : Nat) :
    get_items_loop fcid none t0 times resp (f + 1) bt k =
      if (resp k).length > 0 then
        ([⟨fcid, bt, true⟩], some ((resp k).map (·.result)))
      else
        (⟨fcid, bt, true⟩ ::
            (get_items_loop fcid none t0 times resp f 60 (k + 1)).1,
          (get_items_loop fcid none t0 times resp f 60 (k + 1)).2) := rfl

theorem get_items_loop_succ_some (fcid : String) (t : ℚ) (t0 : ℚ)
    (times : Nat → ℚ) (resp : Nat → List OutputItem) (f : Nat) (bt : ℚ)
    (k : Nat) :
    get_items_loop fcid (some t) t0 times resp (f + 1) bt k =
      if (resp k).length > 0 then
        ([⟨fcid, bt, true⟩], some ((resp k).map (·.result)))
      else if min 60 (t0 + t - times k) < 0 then
        ([⟨fcid, bt, true⟩], some [])
      else
        (⟨fcid, bt, true⟩ ::
            (get_items_loop fcid (some t) t0 times resp f
              (min 60 (t0 + t - times k)) (k + 1)).1,
          (get_items_loop fcid (some t) t0 times resp f
            (min 60 (t0 + t - times k)) (k + 1)).2) := rfl

theorem get_items_loop_requests (fcid : String) (timeout : Option ℚ)
    (t0 : ℚ) (times : Nat → ℚ) (resp : Nat → List OutputItem) :
    ∀ (fuel k : Nat), ∃ n,
      (get_items_loop fcid timeout t0 times resp fuel
          (expected_backend_timeout timeout t0 times k) k).1 =
        (List.range n).map (fun j =>
          (⟨fcid, expected_backend_timeout timeout t0 times (k + j), true⟩ :
            GetOutputsRequest)) := by
  intro fuel
  induction fuel with
  | zero =>
    intro k
    exact ⟨0, rfl⟩
  | succ f ih =>
    intro k
    cases timeout with
    | none =>
      rw [get_items_loop_succ_none]
      by_cases hresp : (resp k).length > 0
      · rw [if_pos hresp]
        refine ⟨1, ?_⟩
        simp [List.range_succ]
      · rw [if_neg hresp]
        obtain ⟨n, hn⟩ := ih (k + 1)
        refine ⟨n + 1, ?_⟩
        dsimp only
        exact Eq.trans (congrArg₂ List.cons rfl hn)
          (range_map_shift (fun i =>
            (⟨fcid, expected_backend_timeout none t0 times i, true⟩ :
              GetOutputsRequest)) n k).symm
    | some t =>
      rw [get_items_loop_succ_some]
      by_cases hresp : (resp k).length > 0
      · rw [if_pos hresp]
        refine ⟨1, ?_⟩
        simp [List.range_succ]
      · rw [if_neg hresp]
        by_cases hneg : min 60 (t0 + t - times k) < 0
        · rw [if_pos hneg]
          refine ⟨1, ?_⟩
          simp [List.range_succ]
        · rw [if_neg hneg]
          obtain ⟨n, hn⟩ := ih (k + 1)
          refine ⟨n + 1, ?_⟩
          dsimp only
          exact Eq.trans (congrArg₂ List.cons rfl hn)
            (range_map_shift (fun i =>
              (⟨fcid, expected_backend_timeout (some t) t0 times i, true⟩ :
                GetOutputsRequest)) n k).symm

theorem get_items_loop_sound (fcid : String) (timeout : Option ℚ) (t0 : ℚ)
    (times : Nat → ℚ) (resp : Nat → List OutputItem) :
    ∀ (fuel : Nat) (bt : ℚ) (k : Nat) (out : List GenericResult),
      (get_items_loop fcid timeout t0 times resp fuel bt k).2 = some out →
      (out = [] ∧
        ∀ j < (get_items_loop fcid timeout t0 times resp fuel bt k).1.length,
          resp (k + j) = []) ∨
      (∃ n, (get_items_loop fcid timeout t0 times resp fuel bt k).1.length
          = n + 1 ∧
        (∀ j < n, resp (k + j) = []) ∧
        out = (resp (k + n)).map (·.result) ∧ (resp (k + n)).length > 0) := by
  intro fuel
  induction fuel with
  | zero =>
    intro bt k out hout
    cases hout
  | succ f ih =>
    intro bt k out hout
    cases timeout with
    | none =>
      rw [get_items_loop_succ_none] at hout ⊢
      by_cases hresp : (resp k).length > 0
      · rw [if_pos hresp] at hout ⊢
        right
        refine ⟨0, rfl, fun j hj => absurd hj (Nat.not_lt_zero j), ?_, ?_⟩
        · rw [Nat.add_zero]
          exact (Option.some.inj hout).symm
        · rw [Nat.add_zero]
          exact hresp
      · rw [if_neg hresp] at hout ⊢
        have hrk : resp k = [] := by
          rcases List.eq_nil_or_concat (resp k) with h | ⟨l, a, h⟩
          · exact h
          · exact absurd (by simp [h]) hresp
        rcases ih 60 (k + 1) out hout with ⟨ho, hall⟩ | ⟨n, hlen, hprev, ho, hne⟩
        · left
          refine ⟨ho, fun j hj => ?_⟩
          cases j with
          | zero => simpa using hrk
          | succ j' =>
            have : k + (j' + 1) = k + 1 + j' := by omega
            rw [this]
            exact hall j' (by simpa using hj)
        · right
          refine ⟨n + 1, by simpa using hlen, fun j hj => ?_, ?_, ?_⟩
          · cases j with
            | zero => simpa using hrk
            | succ j' =>
              have : k + (j' + 1) = k + 1 + j' := by omega
              rw [this]
              exact hprev j' (by omega)
          · have : k + (n + 1) = k + 1 + n := by omega
            rw [this]
            exact ho
          · have : k + (n + 1) = k + 1 + n := by omega
            rw [this]
            exact hne
    | some t =>
      rw [get_items_loop_succ_some] at hout ⊢
      by_cases hresp : (resp k).length > 0
      · rw [if_pos hresp] at hout ⊢
        right
        refine ⟨0, rfl, fun j hj => absurd hj (Nat.not_lt_zero j), ?_, ?_⟩
        · rw [Nat.add_zero]
          exact (Option.some.inj hout).symm
        · rw [Nat.add_zero]
          exact hresp
      · rw [if_neg hresp] at hout ⊢
        have hrk : resp k = [] := by
          rcases List.eq_nil_or_concat (resp k) with h | ⟨l, a, h⟩
          · exact h
          · exact absurd (by simp [h]) hresp
        by_cases hneg : min 60 (t0 + t - times k) < 0
        · rw [if_pos hneg] at hout ⊢
          left
          refine ⟨(Option.some.inj hout).symm, fun j hj => ?_⟩
          have : j = 0 := by simpa using hj
          rw [this, Nat.add_zero]
          exact hrk
        · rw [if_neg hneg] at hout ⊢
          rcases ih (min 60 (t0 + t - times k)) (k + 1) out hout with
            ⟨ho, hall⟩ | ⟨n, hlen, hprev, ho, hne⟩
          · left
            refine ⟨ho, fun j hj => ?_⟩
            cases j with
            | zero => simpa using hrk
            | succ j' =>
              have : k + (j' + 1) = k + 1 + j' := by omega
              rw [this]
              exact hall j' (by simpa using hj)
          · right
            refine ⟨n + 1, by simpa using hlen, fun j hj => ?_, ?_, ?_⟩
            · cases j with
              | zero => simpa using hrk
              | succ j' =>
                have : k + (j' + 1) = k + 1 + j' := by omega
                rw [this]
                exact hprev j' (by omega)
            · have : k + (n + 1) = k + 1 + n := by omega
              rw [this]
              exact ho
            · have : k + (n + 1) = k + 1 + n := by omega
              rw [this]
              exact hne

theorem get_items_loop_deadline (fcid : String) (t : ℚ) (t0 : ℚ)
    (times : Nat → ℚ) (resp : Nat → List OutputItem)
    (hre : ∀ j, resp j = []) :
    ∀ (K fuel : Nat) (bt : ℚ) (k : Nat), K + 1 ≤ fuel →
      t0 + t - times (k + K) < 0 →
      (get_items_loop fcid (some t) t0 times resp fuel bt k).2 = some [] := by
  intro K
  induction K with
  | zero =>
    intro fuel bt k hfuel hK
    obtain ⟨f, rfl⟩ : ∃ f, fuel = f + 1 := ⟨fuel - 1, by omega⟩
    rw [get_items_loop_succ_some, if_neg (by simp [hre k]),
      if_pos (lt_of_le_of_lt (min_le_right _ _) (by simpa using hK))]
  | succ K ih =>
    intro fuel bt k hfuel hK
    obtain ⟨f, rfl⟩ : ∃ f, fuel = f + 1 := ⟨fuel - 1, by omega⟩
    rw [get_items_loop_succ_some, if_neg (by simp [hre k])]
    by_cases hneg : min 60 (t0 + t - times k) < 0
    · rw [if_pos hneg]
    · rw [if_neg hneg]
      refine ih f _ (k + 1) (by omega) ?_
      have : k + 1 + K = k + (K + 1) := by omega
      rw [this]
      exact hK

/-- **C3.** For every timeout value, `get_items(timeout)` polls
`FunctionGetOutputs` with `return_empty_on_timeout = true` and
`backend_timeout = min(60s, remaining)` on every poll, until a response
contains at least one output — then it yields exactly that response's
results and terminates (all earlier polled responses were empty); if the
timeout elapses with no output ever observed, the sequence ends empty;
and when `timeout == 0` exactly one poll is still performed (assuming the
clock advanced since `t0`). -/
theorem get_items_contract (fcid : String) (timeout : Option ℚ) (t0 : ℚ)
    (times : Nat → ℚ) (resp : Nat → List OutputItem) (fuel : Nat) :
    ((get_items fcid timeout t0 times resp fuel).1 =
      (List.range (get_items fcid timeout t0 times resp fuel).1.length).map
        (fun i => ⟨fcid, expected_backend_timeout timeout t0 times i, true⟩)) ∧
    (∀ req ∈ (get_items fcid timeout t0 times resp fuel).1,
      req.return_empty_on_timeout = true ∧ req.function_call_id = fcid) ∧
    (∀ out, (get_items fcid timeout t0 times resp fuel).2 = some out →
      out ≠ [] →
      ∃ n, (get_items fcid timeout t0 times resp fuel).1.length = n + 1 ∧
        (∀ j < n, resp j = []) ∧ out = (resp n).map (·.result) ∧
        resp n ≠ []) ∧
    ((get_items fcid timeout t0 times resp fuel).2 = some [] →
      ∀ j < (get_items fcid timeout t0 times resp fuel).1.length,
        resp j = []) ∧
    (∀ t K, timeout = some t → (∀ j, resp j = []) →
      t0 + t - times K < 0 → K + 1 ≤ fuel →
      (get_items fcid timeout t0 times resp fuel).2 = some []) ∧
    (timeout = some 0 → t0 < times 0 → 1 ≤ fuel →
      (get_items fcid timeout t0 times resp fuel).1.length = 1 ∧
        ((get_items fcid timeout t0 times resp fuel).2).isSome) := by
  obtain ⟨n, hn⟩ := get_items_loop_requests fcid timeout t0 times resp fuel 0
  have hrun1 : (get_items fcid timeout t0 times resp fuel).1 =
      (List.range n).map (fun j =>
        (⟨fcid, expected_backend_timeout timeout t0 times (0 + j), true⟩ :
          GetOutputsRequest)) := hn
  have hlen : (get_items fcid timeout t0 times resp fuel).1.length = n := by
    rw [hrun1]
    simp
  refine ⟨?_, ?_, ?_, ?_, ?_, ?_⟩
  · rw [hlen, hrun1]
    apply List.map_congr_left
    intro j _
    rw [Nat.zero_add]
  · intro req hreq
    rw [hrun1] at hreq
    obtain ⟨j, -, rfl⟩ := List.mem_map.1 hreq
    exact ⟨rfl, rfl⟩
  · intro out hout hne
    rcases get_items_loop_sound fcid timeout t0 times resp fuel
        (initial_backend_timeout timeout) 0 out hout with
      ⟨ho, -⟩ | ⟨m, hmlen, hprev, ho, hpos⟩
    · exact absurd ho hne
    · refine ⟨m, hmlen, fun j hj => ?_, ?_, ?_⟩
      · have := hprev j hj
        rwa [Nat.zero_add] at this
      · rwa [Nat.zero_add] at ho
      · rw [Nat.zero_add] at hpos
        intro hcon
        rw [hcon] at hpos
        exact absurd hpos (by simp)
  · intro hout j hj
    rcases get_items_loop_sound fcid timeout t0 times resp fuel
        (initial_backend_timeout timeout) 0 [] hout with
      ⟨-, hall⟩ | ⟨m, -, -, ho, hpos⟩
    · have := hall j hj
      rwa [Nat.zero_add] at this
    · exfalso
      have hmap : (resp (0 + m)).map (·.result) = [] := ho.symm
      rw [List.map_eq_nil_iff] at hmap
      rw [hmap] at hpos
      exact absurd hpos (by simp)
  · intro t K htimeout hre hK hfuel
    subst htimeout
    refine get_items_loop_deadline fcid t t0 times resp hre K fuel _ 0 hfuel ?_
    rwa [Nat.zero_add]
  · intro htimeout hclock hfuel
    subst htimeout
    obtain ⟨f, rfl⟩ : ∃ f, fuel = f + 1 := ⟨fuel - 1, by omega⟩
    simp only [get_items]
    rw [get_items_loop_succ_some]
    by_cases hresp : (resp 0).length > 0
    · rw [if_pos hresp]
      exact ⟨rfl, rfl⟩
    · rw [if_neg hresp, if_pos (lt_of_le_of_lt (min_le_right _ _)
        (by rw [add_zero]; exact sub_neg.2 hclock))]
      exact ⟨rfl, rfl⟩

/-- Witness for C3 at a concrete run: timeout `0`, an all-empty server,
and a clock that has advanced — one poll happens and the sequence ends
empty. -/
theorem get_items_contract_witness :
    (get_items "fc-1" (some 0) 0 (fun _ => 1) (fun _ => []) 3).1.length = 1 ∧
      ((get_items "fc-1" (some 0) 0 (fun _ => 1) (fun _ => []) 3).2).isSome :=
  (get_items_contract "fc-1" (some 0) 0 (fun _ => 1) (fun _ => []) 3).2.2.2.2.2
    rfl (by norm_num) (by norm_num)

/-- The observable result of `Invocation.poll_function(timeout)`:
either the raised `TimeoutError` or the decoded first result. -/
inductive PollFunctionResult (V : Type) where
  | timeoutError
  | result (o : ProcessOutcome V)
deriving DecidableEq, Repr

/-- `Invocation.poll_function(timeout)`: collect `get_items(timeout)`
into a list; raise `TimeoutError` if it is empty, else decode and return
the first result (`none` = the modelling fuel ran out mid-poll). -/
def poll_function {V : Type} (c : Codec V) (store : BlobStore)
    (function_call_id : String) (timeout : Option ℚ) (t0 : ℚ)
    (times : Nat → ℚ) (resp : Nat → List OutputItem) (fuel : Nat) :
    Option (PollFunctionResult V) :=
  match (get_items function_call_id timeout t0 times resp fuel).2 with
  | none => none
  | some [] => some PollFunctionResult.timeoutError
  | some (r :: _) =>
      some (PollFunctionResult.result (_process_result c store r))

/-- **C5.** Whenever a `poll_function(timeout)` run settles (its
`get_items(timeout)` consumption yields the list `results`), it fails
with `Timeout` if and only if that list is empty; otherwise it decodes
and returns the first result. -/
theorem poll_function_timeout_iff {V : Type} (c : Codec V)
    (store : BlobStore) (function_call_id : String) (timeout : Option ℚ)
    (t0 : ℚ) (times : Nat → ℚ) (resp : Nat → List OutputItem) (fuel : Nat)
    (results : List GenericResult)
    (h : (get_items function_call_id timeout t0 times resp fuel).2 =
      some results) :
    (poll_function c store function_call_id timeout t0 times resp fuel =
        some PollFunctionResult.timeoutError ↔ results = []) ∧
    (∀ r rest, results = r :: rest →
      poll_function c store function_call_id timeout t0 times resp fuel =
        some (PollFunctionResult.result (_process_result c store r))) := by
  constructor
  · rw [poll_function, h]
    cases results with
    | nil => simp
    | cons r rest => simp
  · intro r rest hres
    rw [poll_function, h, hres]

/-- Witness for C5: with a server that answers the first poll with one
output, `poll_function` returns that output decoded; the timeout branch
is not taken. -/
theorem poll_function_timeout_iff_witness :
    ((poll_function
        (⟨fun d => Except.ok d.length, fun _ => true, fun _ => "Nat"⟩ :
          Codec Nat) ⟨[]⟩ "fc-1" (some 1) 0 (fun _ => 1)
        (fun _ => [⟨0, ⟨GenericStatus.GENERIC_STATUS_SUCCESS,
          GenStatus.GENERATOR_STATUS_NONE, [5, 6], none, "", ""⟩⟩]) 3 =
      some PollFunctionResult.timeoutError) ↔
      ([⟨GenericStatus.GENERIC_STATUS_SUCCESS,
        GenStatus.GENERATOR_STATUS_NONE, [5, 6], none, "", ""⟩] :
          List GenericResult) = []) :=
  (poll_function_timeout_iff
    (⟨fun d => Except.ok d.length, fun _ => true, fun _ => "Nat"⟩ :
      Codec Nat) ⟨[]⟩ "fc-1" (some 1) 0 (fun _ => 1)
    (fun _ => [⟨0, ⟨GenericStatus.GENERIC_STATUS_SUCCESS,
      GenStatus.GENERATOR_STATUS_NONE, [5, 6], none, "", ""⟩⟩]) 3
    [⟨GenericStatus.GENERIC_STATUS_SUCCESS,
      GenStatus.GENERATOR_STATUS_NONE, [5, 6], none, "", ""⟩]
    (by decide)).1

theorem takeWhile_of_all {α : Type} (p : α → Bool) :
    ∀ (l : List α), l.all p = true → l.takeWhile p = l := by
  intro l
  induction l with
  | nil => intro _; rfl
  | cons x xs ih =>
    intro h
    rw [List.all_cons, Bool.and_eq_true] at h
    rw [List.takeWhile_cons, if_pos h.1, ih h.2]

theorem takeWhile_append_eq {α : Type} (p : α → Bool) :
    ∀ (l₁ l₂ : List α),
      (l₁ ++ l₂).takeWhile p =
        if l₁.all p then l₁ ++ l₂.takeWhile p else l₁.takeWhile p := by
  intro l₁
  induction l₁ with
  | nil =>
    intro l₂
    simp
  | cons x xs ih =>
    intro l₂
    cases hp : p x with
    | false =>
      simp [List.takeWhile_cons, hp, List.all_cons]
    | true =>
      rw [List.cons_append, List.takeWhile_cons, if_pos hp, ih,
        List.takeWhile_cons, if_pos hp, List.all_cons, hp,
        Bool.true_and, apply_ite (List.cons x), List.cons_append]

/-- The inner `async for result in self.get_items():` loop of
`run_generator`, over the results of one `get_items` call: decode and
yield until the first `gen_status == COMPLETE` item, which is not
yielded; the `Bool` reports whether the COMPLETE marker was seen. -/
def gen_consume {V : Type} (c : Codec V) (store : BlobStore) :
    List GenericResult → List (ProcessOutcome V) × Bool
  | [] => ([], false)
  | r :: rs =>
    if isComplete r then ([], true)
    else
      let t := gen_consume c store rs
      (_process_result c store r :: t.1, t.2)

/-- `Invocation.run_generator()`: repeatedly consume `get_items()` (one
entry of `batches` is the result list of one completed `get_items` call)
until an item with `gen_status == COMPLETE` arrives. Returns the yielded
decoded results in order and whether the stream completed within the
modelled batches. -/
def run_generator {V : Type} (c : Codec V) (store : BlobStore) :
    List (List GenericResult) → List (ProcessOutcome V) × Bool
  | [] => ([], false)
  | batch :: rest =>
    let t := gen_consume c store batch
    if t.2 then (t.1, true)
    else
      let u := run_generator c store rest
      (t.1 ++ u.1, u.2)

theorem gen_consume_eq {V : Type} (c : Codec V) (store : BlobStore) :
    ∀ (b : List GenericResult),
      gen_consume c store b =
        ((b.takeWhile (fun r => !isComplete r)).map (_process_result c store),
          b.any (fun r => isComplete r)) := by
  intro b
  induction b with
  | nil => rfl
  | cons r rs ih =>
    cases hc : isComplete r with
    | true =>
      simp [gen_consume, hc, List.takeWhile_cons, List.any_cons]
    | false =>
      simp [gen_consume, hc, List.takeWhile_cons, List.any_cons, ih]

/-- **C7.** `run_generator()` repeatedly consumes `get_items()`: the
stream terminates exactly when an item with `gen_status == COMPLETE`
arrives; on termination the yielded outputs are precisely the decoded
items that arrived before the first COMPLETE item, in arrival order (the
COMPLETE item itself is not yielded); and while no COMPLETE item has
arrived, every item is decoded and yielded in arrival order. -/
theorem run_generator_stream {V : Type} (c : Codec V) (store : BlobStore)
    (batches : List (List GenericResult)) :
    ((run_generator c store batches).2 = true ↔
      ∃ r ∈ batches.flatten, isComplete r = true) ∧
    ((run_generator c store batches).2 = true →
      (run_generator c store batches).1 =
        ((batches.flatten).takeWhile (fun r => !isComplete r)).map
          (_process_result c store)) ∧
    ((run_generator c store batches).2 = false →
      (run_generator c store batches).1 =
        (batches.flatten).map (_process_result c store)) := by
  induction batches with
  | nil =>
    refine ⟨?_, ?_, ?_⟩
    · simp [run_generator]
    · intro h
      cases h
    · intro _
      rfl
  | cons b bs ih =>
    obtain ⟨ih1, ih2, ih3⟩ := ih
    have hrg : run_generator c store (b :: bs) =
        (let t := gen_consume c store b
        if t.2 then (t.1, true)
        else
          let u := run_generator c store bs
          (t.1 ++ u.1, u.2)) := rfl
    rw [gen_consume_eq] at hrg
    by_cases hb : b.any (fun r => isComplete r) = true
    · rw [hrg]
      simp only [hb, if_pos]
      refine ⟨?_, ?_, ?_⟩
      · simp only [List.flatten_cons]
        constructor
        · intro _
          obtain ⟨r, hr, hc⟩ := List.any_eq_true.1 hb
          exact ⟨r, List.mem_append_left _ hr, hc⟩
        · intro _
          trivial
      · intro _
        have hnotall : ¬ b.all (fun r => !isComplete r) = true := by
          intro hall
          obtain ⟨r, hr, hc⟩ := List.any_eq_true.1 hb
          have := List.all_eq_true.1 hall r hr
          rw [hc] at this
          cases this
        rw [List.flatten_cons, takeWhile_append_eq, if_neg hnotall]
      · intro h
        cases h
    · have hbf : b.any (fun r => isComplete r) = false :=
        Bool.eq_false_iff.2 hb
      have hall : b.all (fun r => !isComplete r) = true := by
        rw [List.all_eq_true]
        intro r hr
        cases hc : isComplete r with
        | false => rfl
        | true => exact absurd (List.any_eq_true.2 ⟨r, hr, hc⟩) hb
      rw [hrg]
      simp only [hbf, Bool.false_eq_true, if_false]
      refine ⟨?_, ?_, ?_⟩
      · rw [List.flatten_cons]
        constructor
        · intro h
          obtain ⟨r, hr, hc⟩ := ih1.1 h
          exact ⟨r, List.mem_append_right _ hr, hc⟩
        · rintro ⟨r, hr, hc⟩
          rcases List.mem_append.1 hr with hh | hh
          · exact absurd (List.any_eq_true.2 ⟨r, hh, hc⟩) hb
          · exact ih1.2 ⟨r, hh, hc⟩
      · intro h
        rw [List.flatten_cons, takeWhile_append_eq, if_pos hall,
          List.map_append, takeWhile_of_all _ b hall, ih2 h]
      · intro h
        rw [List.flatten_cons, List.map_append, takeWhile_of_all _ b hall,
          ih3 h]

/-- Witness for C7 (the spec's generator scenario): three values then a
COMPLETE marker — exactly the three values are yielded, in order, and
the stream completes. -/
theorem run_generator_stream_witness :
    ((run_generator
        (⟨fun d => Except.ok d.length, fun _ => true, fun _ => "Nat"⟩ :
          Codec Nat) ⟨[]⟩
        [[⟨GenericStatus.GENERIC_STATUS_SUCCESS,
            GenStatus.GENERATOR_STATUS_NONE, [1], none, "", ""⟩,
          ⟨GenericStatus.GENERIC_STATUS_SUCCESS,
            GenStatus.GENERATOR_STATUS_NONE, [1, 2], none, "", ""⟩],
         [⟨GenericStatus.GENERIC_STATUS_SUCCESS,
            GenStatus.GENERATOR_STATUS_NONE, [1, 2, 3], none, "", ""⟩,
          ⟨GenericStatus.GENERIC_STATUS_SUCCESS,
            GenStatus.GENERATOR_STATUS_COMPLETE, [9], none, "", ""⟩,
          ⟨GenericStatus.GENERIC_STATUS_SUCCESS,
            GenStatus.GENERATOR_STATUS_NONE, [9, 9], none, "", ""⟩]]).2
      = true) ↔
    ∃ r ∈ ([[⟨GenericStatus.GENERIC_STATUS_SUCCESS,
            GenStatus.GENERATOR_STATUS_NONE, [1], none, "", ""⟩,
          ⟨GenericStatus.GENERIC_STATUS_SUCCESS,
            GenStatus.GENERATOR_STATUS_NONE, [1, 2], none, "", ""⟩],
         [⟨GenericStatus.GENERIC_STATUS_SUCCESS,
            GenStatus.GENERATOR_STATUS_NONE, [1, 2, 3], none, "", ""⟩,
          ⟨GenericStatus.GENERIC_STATUS_SUCCESS,
            GenStatus.GENERATOR_STATUS_COMPLETE, [9], none, "", ""⟩,
          ⟨GenericStatus.GENERIC_STATUS_SUCCESS,
            GenStatus.GENERATOR_STATUS_NONE, [9, 9], none, "", ""⟩]] :
        List (List GenericResult)).flatten, isComplete r = true :=
  (run_generator_stream
    (⟨fun d => Except.ok d.length, fun _ => true, fun _ => "Nat"⟩ :
      Codec Nat) ⟨[]⟩ _).1

/-- The gRPC status codes this module mentions. -/
inductive StatusCode where
  | RESOURCE_EXHAUSTED
  | UNAVAILABLE
  | DEADLINE_EXCEEDED
  | INVALID_ARGUMENT
deriving DecidableEq, Repr

/-- The keyword arguments a call site passes to `retry_transient_errors`:
`max_retries` (`none` models Python's `None` = unlimited), `base_delay`,
and the extra retryable status codes merged into the transient set. -/
structure RetryPolicy where
  max_retries : Option Nat
  base_delay : ℚ
  additional_status_codes : List StatusCode
deriving DecidableEq, Repr

/-- Modelled from the spec: the defaults of `retry_transient_errors`
(`modal_utils/grpc_utils.py` is not under the embedded sources). Per the
spec the default policy has a small positive `max_retries`, and
`RESOURCE_EXHAUSTED` is explicitly not in the default transient set. -/
def defaultRetryPolicy : RetryPolicy :=
  { max_retries := some 3, base_delay := 1, additional_status_codes := [] }

/-- `api_pb2.FunctionPutInputsRequest`. -/
structure FunctionPutInputsRequest where
  function_id : String
  inputs : List FunctionPutInputsItem
  function_call_id : String
deriving DecidableEq, Repr

/-- `api_pb2.FunctionMapRequest`. -/
structure FunctionMapRequest where
  function_id : String
deriving DecidableEq, Repr

/-- A request sent through `retry_transient_errors`. -/
inductive RpcRequest where
  | functionMap (r : FunctionMapRequest)
  | functionPutInputs (r : FunctionPutInputsRequest)
  | functionGetOutputs (r : GetOutputsRequest)
deriving DecidableEq, Repr

/-- One RPC issued by the engine: the request and the retry policy the
call site passed. -/
structure RpcCall where
  request : RpcRequest
  policy : RetryPolicy
deriving DecidableEq, Repr

/-- The retry policy written at both `FunctionPutInputs` call sites
(`Invocation.create` and the Map pump task): `max_retries=None`,
`additional_status_codes=[StatusCode.RESOURCE_EXHAUSTED]`, default
`base_delay`. -/
def putInputsRetryPolicy : RetryPolicy :=
  { max_retries := none
    base_delay := defaultRetryPolicy.base_delay
    additional_status_codes := [StatusCode.RESOURCE_EXHAUSTED] }

/-- The client-side `Invocation` object: it keeps the call id assigned by
the `FunctionMap` response (the stub and client handles are runtime
resources, not modelled). -/
structure Invocation where
  function_call_id : String
deriving DecidableEq, Repr

/-- `Invocation.create(function_id, args, kwargs, client)`: raise
`InvalidError` on an uninitialized (empty) function id; else call
`FunctionMap` (default retry policy) to get `function_call_id`, encode
the single input with no `idx`, and submit it via `FunctionPutInputs`
with unlimited retries and `RESOURCE_EXHAUSTED` retryable. Returns the
issued RPC calls in order, the `Invocation`, and the blob store after
any upload; the `function_call_id` parameter is the id the server
assigns in the `FunctionMap` response. -/
def Invocation.create {α : Type} (function_id : String)
    (max_object_size_bytes : Nat) (serialize : α → List Nat)
    (args_kwargs : α) (store : BlobStore) (function_call_id : String) :
    Except String (List RpcCall × Invocation × BlobStore) :=
  if function_id = "" then
    Except.error "The function has not been initialized."
  else
    let r := _create_input max_object_size_bytes serialize args_kwargs
      store none
    Except.ok
      ([⟨RpcRequest.functionMap ⟨function_id⟩, defaultRetryPolicy⟩,
        ⟨RpcRequest.functionPutInputs
          ⟨function_id, [r.1], function_call_id⟩, putInputsRetryPolicy⟩],
        ⟨function_call_id⟩, r.2)

/-- `MAP_INVOCATION_CHUNK_SIZE = 100`. -/
def MAP_INVOCATION_CHUNK_SIZE : Nat := 100

/-- Modelled from the spec: `queue_batch_iterator(queue, n)`
(`modal_utils/async_utils.py` is not under the embedded sources). Per
the spec the pump task "dequeues Inputs in batches of up to
MAP_INVOCATION_CHUNK_SIZE, flushing on the sentinel", so the items put
on the queue are delivered as consecutive non-empty chunks of at most
`n` items. -/
def queue_batch_go {α : Type} (n : Nat) : Nat → List α → List (List α)
  | _, [] => []
  | 0, _ => []
  | fuel + 1, a :: as =>
    (a :: as.take (n - 1)) :: queue_batch_go n fuel (as.drop (n - 1))

def queue_batch_iterator {α : Type} (n : Nat) (l : List α) :
    List (List α) :=
  queue_batch_go n l.length l

/-- The `pump_inputs` task of `map_invocation`: one `FunctionPutInputs`
call per batch from the queue iterator, each with unlimited retries and
`RESOURCE_EXHAUSTED` retryable. -/
def pump_inputs (function_id function_call_id : String)
    (queue_items : List FunctionPutInputsItem) : List RpcCall :=
  (queue_batch_iterator MAP_INVOCATION_CHUNK_SIZE queue_items).map
    (fun batch =>
      ⟨RpcRequest.functionPutInputs
        ⟨function_id, batch, function_call_id⟩, putInputsRetryPolicy⟩)

theorem queue_batch_go_bounds {α : Type} (n : Nat) (hn : 1 ≤ n) :
    ∀ (fuel : Nat) (l : List α), ∀ b ∈ queue_batch_go n fuel l,
      1 ≤ b.length ∧ b.length ≤ n := by
  intro fuel
  induction fuel with
  | zero =>
    intro l b hb
    cases l <;> simp [queue_batch_go] at hb
  | succ f ih =>
    intro l b hb
    cases l with
    | nil => simp [queue_batch_go] at hb
    | cons a as =>
      simp only [queue_batch_go] at hb
      rcases List.mem_cons.1 hb with hh | hh
      · subst hh
        constructor
        · simp
        · simp only [List.length_cons, List.length_take]
          omega
      · exact ih (as.drop (n - 1)) b hh

theorem queue_batch_iterator_bounds {α : Type} (n : Nat) (hn : 1 ≤ n) :
    ∀ (l : List α), ∀ b ∈ queue_batch_iterator n l,
      1 ≤ b.length ∧ b.length ≤ n :=
  fun l => queue_batch_go_bounds n hn l.length l

/-- **C9.** Every batch submitted by the Map pump task via
`FunctionPutInputs` contains at least 1 and at most
`MAP_INVOCATION_CHUNK_SIZE = 100` inputs. -/
theorem pump_batches_bounded (function_id function_call_id : String)
    (queue_items : List FunctionPutInputsItem) :
    (∀ call ∈ pump_inputs function_id function_call_id queue_items,
      ∀ r, call.request = RpcRequest.functionPutInputs r →
        1 ≤ r.inputs.length ∧
          r.inputs.length ≤ MAP_INVOCATION_CHUNK_SIZE) ∧
    MAP_INVOCATION_CHUNK_SIZE = 100 := by
  refine ⟨?_, rfl⟩
  intro call hcall r hr
  obtain ⟨batch, hbatch, rfl⟩ := List.mem_map.1 hcall
  have hb := queue_batch_iterator_bounds MAP_INVOCATION_CHUNK_SIZE
    (by rw [MAP_INVOCATION_CHUNK_SIZE]; omega) queue_items batch hbatch
  cases hr
  exact hb

/-- Witness for C9: pumping three queued inputs produces batches (here a
single one) whose sizes are within bounds. -/
theorem pump_batches_bounded_witness :
    1 ≤ (⟨"fu-1", [⟨⟨some [1], none⟩, some 0⟩, ⟨⟨some [2], none⟩, some 1⟩],
        "fc-1"⟩ : FunctionPutInputsRequest).inputs.length ∧
      (⟨"fu-1", [⟨⟨some [1], none⟩, some 0⟩, ⟨⟨some [2], none⟩, some 1⟩],
        "fc-1"⟩ : FunctionPutInputsRequest).inputs.length ≤
        MAP_INVOCATION_CHUNK_SIZE :=
  (pump_batches_bounded "fu-1" "fc-1"
    [⟨⟨some [1], none⟩, some 0⟩, ⟨⟨some [2], none⟩, some 1⟩]).1
    ⟨RpcRequest.functionPutInputs
      ⟨"fu-1", [⟨⟨some [1], none⟩, some 0⟩, ⟨⟨some [2], none⟩, some 1⟩],
        "fc-1"⟩, putInputsRetryPolicy⟩
    (by decide) _ rfl

/-- **C6.** Every `FunctionPutInputs` submission — the single-input call
in `Invocation.create` and every batch call in the Map pump task — is
issued with unlimited `max_retries` (`None`) and `RESOURCE_EXHAUSTED`
among the additional retryable status codes, while the `FunctionMap`
call in `Invocation.create` uses the default retry policy. -/
theorem put_inputs_retry_policy_unlimited {α : Type} (function_id : String)
    (max_object_size_bytes : Nat) (serialize : α → List Nat)
    (args_kwargs : α) (store : BlobStore) (function_call_id : String)
    (queue_items : List FunctionPutInputsItem) :
    (∀ trace inv store',
      Invocation.create function_id max_object_size_bytes serialize
          args_kwargs store function_call_id =
        Except.ok (trace, inv, store') →
      ∀ call ∈ trace,
        (∀ r, call.request = RpcRequest.functionPutInputs r →
          call.policy.max_retries = none ∧
          StatusCode.RESOURCE_EXHAUSTED ∈
            call.policy.additional_status_codes) ∧
        (∀ r, call.request = RpcRequest.functionMap r →
          call.policy = defaultRetryPolicy)) ∧
    (∀ call ∈ pump_inputs function_id function_call_id queue_items,
      call.policy.max_retries = none ∧
      StatusCode.RESOURCE_EXHAUSTED ∈ call.policy.additional_status_codes ∧
      ∃ r, call.request = RpcRequest.functionPutInputs r) := by
  constructor
  · intro trace inv store' hok call hcall
    by_cases hfid : function_id = ""
    · rw [Invocation.create, if_pos hfid] at hok
      cases hok
    · rw [Invocation.create, if_neg hfid] at hok
      injection hok with hok
      injection hok with htrace _
      rw [← htrace] at hcall
      rcases List.mem_cons.1 hcall with hh | hh
      · subst hh
        constructor
        · intro r hr
          cases hr
        · intro r _
          rfl
      · rcases List.mem_cons.1 hh with hh2 | hh2
        · subst hh2
          constructor
          · intro r _
            exact ⟨rfl, List.mem_cons_self _ _⟩
          · intro r hr
            cases hr
        · cases hh2
  · intro call hcall
    obtain ⟨batch, -, rfl⟩ := List.mem_map.1 hcall
    exact ⟨rfl, List.mem_cons_self _ _, ⟨_, rfl⟩⟩

/-- Witness for C6: the concrete pump call for one queued input carries
the unlimited-retries policy with `RESOURCE_EXHAUSTED` retryable. -/
theorem put_inputs_retry_policy_unlimited_witness :
    (⟨RpcRequest.functionPutInputs
        ⟨"fu-1", [⟨⟨some [1], none⟩, some 0⟩], "fc-1"⟩,
      putInputsRetryPolicy⟩ : RpcCall).policy.max_retries = none ∧
    StatusCode.RESOURCE_EXHAUSTED ∈
      (⟨RpcRequest.functionPutInputs
          ⟨"fu-1", [⟨⟨some [1], none⟩, some 0⟩], "fc-1"⟩,
        putInputsRetryPolicy⟩ : RpcCall).policy.additional_status_codes ∧
    ∃ r, (⟨RpcRequest.functionPutInputs
        ⟨"fu-1", [⟨⟨some [1], none⟩, some 0⟩], "fc-1"⟩,
      putInputsRetryPolicy⟩ : RpcCall).request =
        RpcRequest.functionPutInputs r :=
  (put_inputs_retry_policy_unlimited "fu-1" 100 id ([] : List Nat) ⟨[]⟩
    "fc-1" [⟨⟨some [1], none⟩, some 0⟩]).2
    ⟨RpcRequest.functionPutInputs
      ⟨"fu-1", [⟨⟨some [1], none⟩, some 0⟩], "fc-1"⟩, putInputsRetryPolicy⟩
    (by decide)

/-- The `_FunctionCall` handle returned by `submit`: an object whose
`object_id` is the invocation's `function_call_id`. -/
structure FunctionCallHandle where
  object_id : String
deriving DecidableEq, Repr

/-- `_Function.submit(*args, **kwargs)`: start the invocation without
waiting for results (both branches run `Invocation.create`, via
`call_generator_nowait` resp. `call_function_nowait`); for a generator
function return `None`, otherwise a `_FunctionCall` built from
`invocation.client` and `invocation.function_call_id`. -/
def submit {α : Type} (is_generator : Bool) (function_id : String)
    (max_object_size_bytes : Nat) (serialize : α → List Nat)
    (args_kwargs : α) (store : BlobStore) (function_call_id : String) :
    Except String (List RpcCall × Option FunctionCallHandle) :=
  match Invocation.create function_id max_object_size_bytes serialize
      args_kwargs store function_call_id with
  | Except.error e => Except.error e
  | Except.ok (trace, inv, _) =>
    if is_generator then Except.ok (trace, none)
    else Except.ok (trace, some ⟨inv.function_call_id⟩)

/-- **C10.** For every generator function, `submit` starts the invocation
(it issues exactly the `Invocation.create` RPC trace) but returns `None`
instead of a `FunctionCall` handle; for every non-generator function it
returns a `FunctionCall` carrying the invocation's `function_call_id`. -/
theorem submit_generator_handle {α : Type} (is_generator : Bool)
    (function_id : String) (max_object_size_bytes : Nat)
    (serialize : α → List Nat) (args_kwargs : α) (store : BlobStore)
    (function_call_id : String) (hfid : function_id ≠ "") :
    ∃ trace inv store',
      Invocation.create function_id max_object_size_bytes serialize
          args_kwargs store function_call_id =
        Except.ok (trace, inv, store') ∧
      submit is_generator function_id max_object_size_bytes serialize
          args_kwargs store function_call_id =
        Except.ok (trace,
          if is_generator then none
          else some ⟨inv.function_call_id⟩) ∧
      inv.function_call_id = function_call_id := by
  have hc : Invocation.create function_id max_object_size_bytes serialize
      args_kwargs store function_call_id =
    Except.ok
      ([⟨RpcRequest.functionMap ⟨function_id⟩, defaultRetryPolicy⟩,
        ⟨RpcRequest.functionPutInputs
          ⟨function_id,
            [(_create_input max_object_size_bytes serialize args_kwargs
              store none).1], function_call_id⟩, putInputsRetryPolicy⟩],
        (⟨function_call_id⟩ : Invocation),
        (_create_input max_object_size_bytes serialize args_kwargs
          store none).2) := by
    rw [Invocation.create, if_neg hfid]
  refine ⟨_, _, _, hc, ?_, rfl⟩
  rw [submit, hc]
  cases is_generator with
  | false => rfl
  | true => rfl

/-- Witness for C10: submitting a generator function starts the
invocation and returns no handle. -/
theorem submit_generator_handle_witness :
    ∃ trace inv store',
      Invocation.create "fu-1" 100 id ([1, 2] : List Nat) ⟨[]⟩ "fc-1" =
        Except.ok (trace, inv, store') ∧
      submit true "fu-1" 100 id ([1, 2] : List Nat) ⟨[]⟩ "fc-1" =
        Except.ok (trace,
          if true then none else some ⟨inv.function_call_id⟩) ∧
      inv.function_call_id = "fc-1" :=
  submit_generator_handle true "fu-1" 100 id ([1, 2] : List Nat) ⟨[]⟩
    "fc-1" (by decide)
